import Mathlib

/-!
# DocuMind — verification of the RAG session engine and frontend chat flow

The repository ships a Next.js frontend (`frontend/app/page.tsx`) and documents
a FastAPI backend (`backend.py`) that is not part of the source tree.  The
backend core — Chunker, VectorIndex, SessionStore, Retriever and
AnswerOrchestrator — is therefore modelled from the specification; each such
definition carries a doc comment starting with "Modelled from the spec:".
The frontend chat handler `handleSend` is embedded directly from
`src/frontend/app/page.tsx`.

Strings are embedded as `List Char`; the similarity metric, left open by the
spec (section 9), is fixed to the integer inner product, used consistently at
build and query time.
-/

namespace DocuMind

/-- Modelled from the spec: the error taxonomy of the core (spec section 7). -/
inductive RagError where
  | invalidConfig
  | emptyDocument
  | embeddingFailure
  | sessionNotFound
  | generationFailure
  deriving DecidableEq, Repr

/-- A chunk of document text (spec section 3). -/
structure Chunk where
  id : Nat
  text : List Char
  sourceOffset : Nat
  deriving DecidableEq, Repr

/-- Modelled from the spec: the sliding-window loop of the Chunker
(spec section 4.1, implemented in the absent `backend.py`).  Each step emits a
window of `chunkSize` characters and advances by `step = chunkSize - overlap`;
once the whole remaining text fits in one window it is emitted as the final
(possibly shorter) chunk.  `fuel` bounds the recursion and is instantiated
with the text length by `chunk`. -/
def chunkWindows (chunkSize step : Nat) : Nat → List Char → List (List Char)
  | _, [] => []
  | 0, _ => []
  | fuel + 1, text =>
      if text.length ≤ chunkSize then [text]
      else text.take chunkSize :: chunkWindows chunkSize step fuel (text.drop step)

/-- Number the windows into `Chunk` records: sequential ids starting at 0,
source offsets advancing by `step`. -/
def mkChunks (step : Nat) (ws : List (List Char)) : List Chunk :=
  ws.enum.map fun p => ⟨p.1, p.2, p.1 * step⟩

/-- Modelled from the spec: `chunk(text, chunkSize, overlap)` of spec
section 4.1.  Fails with `InvalidConfig` unless `chunkSize > overlap ≥ 0`
(`overlap ≥ 0` holds by the `Nat` type); empty text yields an empty chunk
sequence. -/
def chunk (text : List Char) (chunkSize overlap : Nat) : Except RagError (List Chunk) :=
  if overlap < chunkSize then
    .ok (mkChunks (chunkSize - overlap)
      (chunkWindows chunkSize (chunkSize - overlap) text.length text))
  else
    .error .invalidConfig

/-- Concatenate a chunk-text sequence after removing from every chunk but the
first the `overlap` characters it shares with its predecessor. -/
def deOverlap (overlap : Nat) : List (List Char) → List Char
  | [] => []
  | w :: ws => w ++ (ws.map fun v => v.drop overlap).flatten

/-- An embedding vector (spec section 3).  The spec's floating-point entries
are modelled exactly as integers; the similarity order is all that the claims
depend on. -/
abbrev Embedding := List Int

/-- Modelled from the spec: the external embedder capability (spec section 6),
independently failable. -/
abbrev Embedder := List Char → Option Embedding

/-- Modelled from the spec: the external language-model capability
(spec section 6); `none` models an error or timeout. -/
abbrev LLM := List Char → Option (List Char)

/-- A vector index: the ordered (chunk, embedding) pairs of one document
(spec section 3). -/
abbrev VectorIndex := List (Chunk × Embedding)

/-- Modelled from the spec: inner-product similarity.  The metric is an open
choice in spec section 9; the inner product is fixed here and used at both
build and query time. -/
def dot : Embedding → Embedding → Int
  | a :: as, b :: bs => a * b + dot as bs
  | _, _ => 0

/-- Modelled from the spec: `VectorIndex.build` (spec section 4.2) — embed
every chunk, all-or-nothing: any embedder failure yields no index at all. -/
def build (emb : Embedder) : List Chunk → Option VectorIndex
  | [] => some []
  | c :: cs =>
      match emb c.text, build emb cs with
      | some e, some rest => some ((c, e) :: rest)
      | _, _ => none

/-- Ranking order of search results (spec section 4.2): strictly higher score
first; exactly equal scores are broken by the lower chunk id. -/
def rankRel (a b : Chunk × Int) : Prop :=
  b.2 < a.2 ∨ (a.2 = b.2 ∧ a.1.id ≤ b.1.id)

instance : DecidableRel rankRel := fun a b =>
  show Decidable (b.2 < a.2 ∨ (a.2 = b.2 ∧ a.1.id ≤ b.1.id)) from inferInstance

instance : IsTotal (Chunk × Int) rankRel :=
  ⟨by intro a b; unfold rankRel; omega⟩

instance : IsTrans (Chunk × Int) rankRel :=
  ⟨by intro a b c h₁ h₂; unfold rankRel at h₁ h₂ ⊢; omega⟩

/-- Score every index entry against the query embedding. -/
def scoreAll (idx : VectorIndex) (q : Embedding) : List (Chunk × Int) :=
  idx.map fun p => (p.1, dot q p.2)

/-- Modelled from the spec: `VectorIndex.search` (spec section 4.2) — rank all
entries by descending score with the stable id tie-break and keep at most `k`;
an index holding fewer than `k` chunks simply returns them all. -/
def search (idx : VectorIndex) (q : Embedding) (k : Nat) : List (Chunk × Int) :=
  (List.insertionSort rankRel (scoreAll idx q)).take k

/-- The two chat roles (spec section 3). -/
inductive Role where
  | user
  | assistant
  deriving DecidableEq, Repr

/-- One history message (spec section 3); also the frontend's message shape. -/
structure ChatMsg where
  role : Role
  content : List Char
  deriving DecidableEq, Repr

/-- A session (spec section 3): source file name, the immutable vector index,
and the conversation history. -/
structure Session where
  fileName : List Char
  index : VectorIndex
  history : List ChatMsg
  deriving DecidableEq, Repr

/-- Modelled from the spec: the in-memory SessionStore (spec section 4.3):
an association list from session id to session, plus the counter that issues
fresh, never-reused ids. -/
structure Store where
  sessions : List (Nat × Session)
  nextId : Nat
  deriving DecidableEq, Repr

/-- Look a session id up in the association list. -/
def lookupSession : List (Nat × Session) → Nat → Option Session
  | [], _ => none
  | p :: rest, sid => if p.1 = sid then some p.2 else lookupSession rest sid

/-- Append a turn to the history of the session named `sid`, leaving every
other entry untouched. -/
def appendHistory : List (Nat × Session) → Nat → List ChatMsg → List (Nat × Session)
  | [], _, _ => []
  | p :: rest, sid, turn =>
      (p.1, if p.1 = sid then { p.2 with history := p.2.history ++ turn } else p.2) ::
        appendHistory rest sid turn

/-- Modelled from the spec: `SessionStore.create` (spec section 4.3) — a fresh
id from the counter, never reused across the process lifetime. -/
def create (st : Store) (fileName : List Char) (idx : VectorIndex) : Nat × Store :=
  (st.nextId, ⟨st.sessions ++ [(st.nextId, ⟨fileName, idx, []⟩)], st.nextId + 1⟩)

/-- Modelled from the spec: `SessionStore.appendTurn` (spec section 4.3) —
atomically append one user/assistant turn; fail with `SessionNotFound` and
leave the store untouched when the id is absent. -/
def appendTurn (st : Store) (sid : Nat) (u a : List Char) : Except RagError Unit × Store :=
  match lookupSession st.sessions sid with
  | none => (.error .sessionNotFound, st)
  | some _ =>
      (.ok (), ⟨appendHistory st.sessions sid [⟨.user, u⟩, ⟨.assistant, a⟩], st.nextId⟩)

/-- Modelled from the spec: the Retriever (spec section 4.4) — embed the query,
defensively check the dimensionality against the index (a mismatch is an
embedding failure per spec section 7), search, discard scores. -/
def retrieve (emb : Embedder) (s : Session) (query : List Char) (k : Nat) :
    Except RagError (List Chunk) :=
  match emb query with
  | none => .error .embeddingFailure
  | some q =>
      if s.index.all fun p => p.2.length == q.length then
        .ok ((search s.index q k).map Prod.fst)
      else
        .error .embeddingFailure

/-- Modelled from the spec: retrieval as a store-level operation — read the
session, retrieve, and return the store as it was (retrieval never mutates). -/
def retrieveOp (emb : Embedder) (st : Store) (sid : Nat) (query : List Char) (k : Nat) :
    Except RagError (List Chunk) × Store :=
  match lookupSession st.sessions sid with
  | none => (.error .sessionNotFound, st)
  | some s => (retrieve emb s query k, st)

/-- Modelled from the spec: the system instruction of the grounded prompt
(spec section 4.5, step 3). -/
def systemInstruction : List Char :=
  "Answer only from the provided context; state explicitly when the answer is not contained in it.\n".data

/-- Modelled from the spec: the delimiter tagging each chunk boundary in the
grounding context (spec section 4.5, step 2). -/
def chunkTag : List Char := "\n---\n".data

/-- Modelled from the spec: the marker used instead of a context when the
retriever returns zero chunks (spec section 4.5, edge case policy). -/
def noContextMarker : List Char := "no relevant context found".data

/-- Modelled from the spec: the fixed number of most recent turns kept
verbatim in the prompt (spec section 4.5, history bounding). -/
def maxHistoryTurns : Nat := 5

/-- Modelled from the spec: concatenate the retrieved chunk texts in ranked
order, each preceded by the boundary tag; zero chunks yield the explicit
no-context marker. -/
def assembleContext : List Chunk → List Char
  | [] => noContextMarker
  | cks => (cks.map fun c => chunkTag ++ c.text).flatten

/-- Render one history message for the prompt. -/
def renderTurn (m : ChatMsg) : List Char :=
  (match m.role with
    | .user => "user: ".data
    | .assistant => "assistant: ".data) ++ m.content ++ ['\n']

/-- Modelled from the spec: keep only the last `maxHistoryTurns` turns (two
messages each) of the history; older turns are dropped entirely. -/
def boundedHistory (h : List ChatMsg) : List ChatMsg :=
  h.drop (h.length - 2 * maxHistoryTurns)

/-- Modelled from the spec: prompt assembly (spec section 4.5, steps 2–3). -/
def buildPrompt (cks : List Chunk) (history : List ChatMsg) (userMsg : List Char) : List Char :=
  systemInstruction ++ assembleContext cks ++
    ((boundedHistory history).map renderTurn).flatten ++ userMsg

/-- Modelled from the spec: `AnswerOrchestrator.answer` (spec section 4.5) —
retrieve, assemble the prompt, invoke the language model (an error or timeout
is `GenerationFailure`), and only after generation succeeds append the turn
through the store. -/
def answer (emb : Embedder) (gen : LLM) (k : Nat) (st : Store) (sid : Nat) (s : Session)
    (userMsg : List Char) : Except RagError (List Char) × Store :=
  match retrieve emb s userMsg k with
  | .error e => (.error e, st)
  | .ok cks =>
      match gen (buildPrompt cks s.history userMsg) with
      | none => (.error .generationFailure, st)
      | some ans =>
          ((appendTurn st sid userMsg ans).1.map fun _ => ans,
            (appendTurn st sid userMsg ans).2)

/-- Modelled from the spec: the `chat` entry point (spec section 6) — look the
session up, passing `SessionNotFound` through to the client, then answer. -/
def chat (emb : Embedder) (gen : LLM) (k : Nat) (st : Store) (sid : Nat) (msg : List Char) :
    Except RagError (List Char) × Store :=
  match lookupSession st.sessions sid with
  | none => (.error .sessionNotFound, st)
  | some s => answer emb gen k st sid s msg

/-- Modelled from the spec: the `ingest` upload flow (spec sections 3 and 6) —
chunk the text, treat an empty chunk sequence as `EmptyDocument`, build the
index all-or-nothing, and create a brand-new session. -/
def ingest (emb : Embedder) (chunkSize overlap : Nat) (st : Store)
    (fileName rawText : List Char) : Except RagError Nat × Store :=
  match chunk rawText chunkSize overlap with
  | .error e => (.error e, st)
  | .ok [] => (.error .emptyDocument, st)
  | .ok (c :: cks) =>
      match build emb (c :: cks) with
      | none => (.error .embeddingFailure, st)
      | some idx => ((create st fileName idx).1 |> .ok, (create st fileName idx).2)

/-- The frontend component state of `DocuMindPage` (src/frontend/app/page.tsx):
the fields `handleSend` reads or writes. -/
structure UIState where
  sessionId : Option (List Char)
  messages : List ChatMsg
  input : List Char
  loading : Bool
  deriving DecidableEq, Repr

/-- JavaScript `String.prototype.trim`: strip whitespace from both ends. -/
def trimChars (l : List Char) : List Char :=
  ((l.dropWhile Char.isWhitespace).reverse.dropWhile Char.isWhitespace).reverse

/-- JavaScript `a || d` on an optional string: an absent or empty (falsy)
value falls back to the default. -/
def jsOr (a : Option (List Char)) (d : List Char) : List Char :=
  match a with
  | none => d
  | some s => if s = [] then d else s

/-- The observable outcome of the `fetch` to `/chat` in `handleSend`
(src/frontend/app/page.tsx): an ok response whose JSON body may or may not
carry an `answer` field, a non-ok response whose JSON body may carry a
`detail` field, or a thrown error (network failure, JSON parse failure)
carrying a message. -/
inductive ChatResponse where
  | ok (answer : Option (List Char))
  | httpErr (detail : Option (List Char))
  | netErr (message : Option (List Char))
  deriving DecidableEq, Repr

/-- The guard of `handleSend` (page.tsx line 61):
`if (!input.trim() || !sessionId || loading) return;`. -/
def sendGuardFails (st : UIState) : Bool :=
  (trimChars st.input).isEmpty || st.sessionId.isNone || st.loading

/-- The assistant message content `handleSend` appends for a given fetch
outcome: `data.answer || "No response received"` on an ok response, otherwise
the caught error rendered through the template literal, where a non-ok
response throws `new Error(error.detail || "Chat request failed")`. -/
def assistantReply : ChatResponse → List Char
  | .ok a => jsOr a "No response received".data
  | .httpErr d =>
      "Error: ".data ++
        jsOr (some (jsOr d "Chat request failed".data))
          "Something went wrong. Please try again.".data
  | .netErr m =>
      "Error: ".data ++ jsOr m "Something went wrong. Please try again.".data

/-- `handleSend` from src/frontend/app/page.tsx, lines 60–106, as a state
transition: given the component state and the fetch outcome, return the state
after the handler finishes and whether a network request was issued.  When the
guard fails nothing happens; otherwise the trimmed question is appended as a
user message, the input is cleared, the request runs, the reply (or error
text) is appended as an assistant message on top of the captured
`newMessages`, and the `finally` block clears `loading`. -/
def handleSend (st : UIState) (resp : ChatResponse) : UIState × Bool :=
  if sendGuardFails st then (st, false)
  else
    ({ st with
        input := [],
        messages :=
          (st.messages ++ [⟨.user, trimChars st.input⟩]) ++
            [⟨.assistant, assistantReply resp⟩],
        loading := false }, true)

/-- The assistant content exactly as claim C10 words it: the backend's answer
on success, the literal "No response received" only when the body lacks an
answer field, an "Error: "-prefixed string on failure. -/
def claimedReplySpec : ChatResponse → List Char → Prop
  | .ok (some a), c => c = a
  | .ok none, c => c = "No response received".data
  | .httpErr _, c => ∃ s, c = "Error: ".data ++ s
  | .netErr _, c => ∃ s, c = "Error: ".data ++ s

/-- The assistant content as amended: an empty (falsy) answer string is also
replaced by "No response received". -/
def amendedReplySpec : ChatResponse → List Char → Prop
  | .ok (some a), c => if a = [] then c = "No response received".data else c = a
  | .ok none, c => c = "No response received".data
  | .httpErr _, c => ∃ s, c = "Error: ".data ++ s
  | .netErr _, c => ∃ s, c = "Error: ".data ++ s

/-- A conversation that alternates user/assistant roles starting with a user
message and ending complete (even length). -/
def Alternating (l : List ChatMsg) : Prop :=
  l.length % 2 = 0 ∧
    ∀ (i : Nat) (h : i < l.length),
      (l[i]).role = if i % 2 = 0 then Role.user else Role.assistant

/-- Test fixture: one chunk. -/
def sampleChunk : Chunk := ⟨0, "hello".data, 0⟩

/-- Test fixture: a one-entry index. -/
def sampleIndex : VectorIndex := [(sampleChunk, [1])]

/-- Test fixture: a session over `sampleIndex`. -/
def sampleSession : Session := ⟨"doc.pdf".data, sampleIndex, []⟩

/-- Test fixture: a store holding `sampleSession` under id 0. -/
def sampleStore : Store := ⟨[(0, sampleSession)], 1⟩

/-- Test fixture: an embedder returning a fixed one-dimensional vector. -/
def constEmbedder : Embedder := fun _ => some [1]

/-- Test fixture: a language-model stub that throws on every invocation. -/
def failingLLM : LLM := fun _ => none

/-- Test fixture: a three-entry index with a score tie between ids 0 and 2
under the query [1]. -/
def tieIndex : VectorIndex :=
  [(⟨0, "a".data, 0⟩, [3]), (⟨1, "b".data, 8⟩, [5]), (⟨2, "c".data, 16⟩, [3])]

theorem deOverlap_cons (ov : Nat) (w : List Char) (ws : List (List Char)) :
    deOverlap ov (w :: ws) = w ++ (ws.map fun v => v.drop ov).flatten := rfl

theorem chunkWindows_nil (cs step fuel : Nat) : chunkWindows cs step fuel [] = [] := by
  cases fuel <;> rfl

theorem chunkWindows_zero (cs step : Nat) (text : List Char) :
    chunkWindows cs step 0 text = [] := by
  cases text <;> rfl

theorem chunkWindows_succ (cs step fuel : Nat) (c : Char) (r : List Char) :
    chunkWindows cs step (fuel + 1) (c :: r) =
      if (c :: r).length ≤ cs then [c :: r]
      else (c :: r).take cs :: chunkWindows cs step fuel ((c :: r).drop step) := rfl

theorem chunkWindows_flatten_drop (cs ov : Nat) (hov : ov < cs) :
    ∀ (fuel : Nat) (text : List Char), text.length ≤ fuel →
      ((chunkWindows cs (cs - ov) fuel text).map fun w => w.drop ov).flatten =
        text.drop ov := by
  intro fuel
  induction fuel with
  | zero =>
      intro text hlen
      cases text with
      | nil => simp [chunkWindows_nil]
      | cons c r => simp at hlen
  | succ fuel ih =>
      intro text hlen
      cases text with
      | nil => simp [chunkWindows_nil]
      | cons c r =>
          rw [chunkWindows_succ]
          by_cases hle : (c :: r).length ≤ cs
          · rw [if_pos hle]
            simp
          · rw [if_neg hle]
            have hrec : ((c :: r).drop (cs - ov)).length ≤ fuel := by
              rw [List.length_drop]
              simp at hlen ⊢
              omega
            simp only [List.map_cons, List.flatten_cons]
            rw [ih _ hrec]
            have h₁ : ((c :: r).take cs).drop ov = ((c :: r).drop ov).take (cs - ov) :=
              List.drop_take cs ov (c :: r)
            have h₂ : ((c :: r).drop (cs - ov)).drop ov = ((c :: r).drop ov).drop (cs - ov) := by
              rw [List.drop_drop, List.drop_drop]
              congr 1
              omega
            rw [h₁, h₂, List.take_append_drop]

theorem deOverlap_chunkWindows (cs ov : Nat) (hov : ov < cs) :
    ∀ (fuel : Nat) (text : List Char), text.length ≤ fuel →
      deOverlap ov (chunkWindows cs (cs - ov) fuel text) = text := by
  intro fuel
  cases fuel with
  | zero =>
      intro text hlen
      cases text with
      | nil => simp [chunkWindows_nil, deOverlap]
      | cons c r => simp at hlen
  | succ fuel =>
      intro text hlen
      cases text with
      | nil => simp [chunkWindows_nil, deOverlap]
      | cons c r =>
          rw [chunkWindows_succ]
          by_cases hle : (c :: r).length ≤ cs
          · rw [if_pos hle]
            simp [deOverlap]
          · rw [if_neg hle]
            have hrec : ((c :: r).drop (cs - ov)).length ≤ fuel := by
              rw [List.length_drop]
              simp at hlen ⊢
              omega
            rw [deOverlap_cons]
            rw [chunkWindows_flatten_drop cs ov hov fuel _ hrec]
            rw [List.drop_drop]
            have : cs - ov + ov = cs := by omega
            rw [this, List.take_append_drop]

theorem chunkWindows_length_le (cs step : Nat) :
    ∀ (fuel : Nat) (text : List Char), ∀ w ∈ chunkWindows cs step fuel text,
      w.length ≤ cs := by
  intro fuel
  induction fuel with
  | zero =>
      intro text w hw
      rw [chunkWindows_zero] at hw
      simp at hw
  | succ fuel ih =>
      intro text w hw
      cases text with
      | nil => rw [chunkWindows_nil] at hw; simp at hw
      | cons c r =>
          rw [chunkWindows_succ] at hw
          by_cases hle : (c :: r).length ≤ cs
          · rw [if_pos hle] at hw
            simp at hw
            subst hw
            exact hle
          · rw [if_neg hle] at hw
            rcases List.mem_cons.mp hw with h | h
            · subst h
              rw [List.length_take]
              omega
            · exact ih _ _ h

theorem chunkWindows_dropLast (cs step : Nat) :
    ∀ (fuel : Nat) (text : List Char), ∀ w ∈ (chunkWindows cs step fuel text).dropLast,
      w.length = cs := by
  intro fuel
  induction fuel with
  | zero =>
      intro text w hw
      rw [chunkWindows_zero] at hw
      simp at hw
  | succ fuel ih =>
      intro text w hw
      cases text with
      | nil => rw [chunkWindows_nil] at hw; simp at hw
      | cons c r =>
          rw [chunkWindows_succ] at hw
          by_cases hle : (c :: r).length ≤ cs
          · rw [if_pos hle] at hw
            simp at hw
          · rw [if_neg hle] at hw
            cases hrec : chunkWindows cs step fuel ((c :: r).drop step) with
            | nil => rw [hrec] at hw; simp at hw
            | cons w₂ ws =>
                rw [hrec, List.dropLast_cons₂] at hw
                rcases List.mem_cons.mp hw with h | h
                · subst h
                  rw [List.length_take]
                  omega
                · exact ih _ w (by rw [hrec]; exact h)

theorem mkChunks_map_text (step : Nat) (ws : List (List Char)) :
    (mkChunks step ws).map Chunk.text = ws := by
  unfold mkChunks
  rw [List.map_map]
  exact List.enum_map_snd ws

/-- Claim C1: for every `chunkSize > overlap ≥ 0` and non-empty text, `chunk`
succeeds, the concatenation of its chunks after removing the overlap shared
between adjacent chunks equals the original text, every chunk has length at
most `chunkSize`, and every chunk except possibly the final one has length
exactly `chunkSize` (the window advances by `chunkSize - overlap`). -/
theorem chunk_reconstructs (text : List Char) (chunkSize overlap : Nat)
    (hov : overlap < chunkSize) (_hne : text ≠ []) :
    ∃ cks, chunk text chunkSize overlap = .ok cks ∧
      deOverlap overlap (cks.map Chunk.text) = text ∧
      (∀ c ∈ cks, c.text.length ≤ chunkSize) ∧
      (∀ c ∈ cks.dropLast, c.text.length = chunkSize) := by
  refine ⟨mkChunks (chunkSize - overlap)
      (chunkWindows chunkSize (chunkSize - overlap) text.length text), ?_, ?_, ?_, ?_⟩
  · unfold chunk
    rw [if_pos hov]
  · rw [mkChunks_map_text]
    exact deOverlap_chunkWindows chunkSize overlap hov text.length text le_rfl
  · intro c hc
    have hm : c.text ∈ (mkChunks (chunkSize - overlap)
        (chunkWindows chunkSize (chunkSize - overlap) text.length text)).map Chunk.text :=
      List.mem_map_of_mem Chunk.text hc
    rw [mkChunks_map_text] at hm
    exact chunkWindows_length_le chunkSize (chunkSize - overlap) text.length text _ hm
  · intro c hc
    have hm : c.text ∈ ((mkChunks (chunkSize - overlap)
        (chunkWindows chunkSize (chunkSize - overlap) text.length text)).dropLast).map
          Chunk.text :=
      List.mem_map_of_mem Chunk.text hc
    rw [List.map_dropLast, mkChunks_map_text] at hm
    exact chunkWindows_dropLast chunkSize (chunkSize - overlap) text.length text _ hm

/-- Witness for claim C1 at the spec's own scenario: text
"Alpha. Beta. Gamma." with chunkSize 10 and overlap 2. -/
theorem chunk_reconstructs_witness :
    (2 < 10 ∧ "Alpha. Beta. Gamma.".data ≠ []) ∧
    ∃ cks, chunk "Alpha. Beta. Gamma.".data 10 2 = .ok cks ∧
      deOverlap 2 (cks.map Chunk.text) = "Alpha. Beta. Gamma.".data ∧
      (∀ c ∈ cks, c.text.length ≤ 10) ∧
      (∀ c ∈ cks.dropLast, c.text.length = 10) :=
  ⟨⟨by decide, by decide⟩,
    chunk_reconstructs "Alpha. Beta. Gamma.".data 10 2 (by decide) (by decide)⟩

/-- Claim C7: `chunk` fails with `InvalidConfig` exactly when
`chunkSize > overlap ≥ 0` is violated; under valid parameters it never errors,
and empty input yields the empty chunk sequence rather than an error. -/
theorem chunk_config_errors (text : List Char) (chunkSize overlap : Nat) :
    (chunk text chunkSize overlap = .error .invalidConfig ↔ ¬ overlap < chunkSize) ∧
    (overlap < chunkSize → ∃ cks, chunk text chunkSize overlap = .ok cks) ∧
    (overlap < chunkSize → chunk [] chunkSize overlap = .ok []) := by
  unfold chunk
  by_cases h : overlap < chunkSize
  · rw [if_pos h, if_pos h]
    exact ⟨by simp [h], fun _ => ⟨_, rfl⟩, fun _ => rfl⟩
  · rw [if_neg h, if_neg h]
    exact ⟨by simp [h], fun hh => absurd hh h, fun hh => absurd hh h⟩

/-- Witness for claim C7 at chunkSize 10, overlap 2 and at the invalid pair
chunkSize 2, overlap 2. -/
theorem chunk_config_errors_witness :
    ((chunk "hi".data 10 2 = .error .invalidConfig ↔ ¬ 2 < 10) ∧
      (2 < 10 → ∃ cks, chunk "hi".data 10 2 = .ok cks) ∧
      (2 < 10 → chunk [] 10 2 = .ok [])) ∧
    chunk "hi".data 2 2 = .error .invalidConfig :=
  ⟨chunk_config_errors "hi".data 10 2,
    ((chunk_config_errors "hi".data 2 2).1).mpr (by decide)⟩

/-- Claim C2: for every index and `k ≥ 1`, `search` returns at most
`min(k, indexSize)` results, ordered by non-increasing similarity score, ties
between exactly equal scores broken by the lower chunk id, and an index with
fewer than `k` chunks yields all chunks (as a permutation), never padding and
never erroring. -/
theorem search_spec (idx : VectorIndex) (q : Embedding) (k : Nat) (_hk : 1 ≤ k) :
    (search idx q k).length ≤ min k idx.length ∧
    (search idx q k).Pairwise (fun a b => b.2 ≤ a.2) ∧
    ((idx.map fun p => p.1.id).Nodup →
      (search idx q k).Pairwise fun a b => a.2 = b.2 → a.1.id < b.1.id) ∧
    (idx.length < k → ((search idx q k).map Prod.fst).Perm (idx.map Prod.fst)) := by
  have hperm : (List.insertionSort rankRel (scoreAll idx q)).Perm (scoreAll idx q) :=
    List.perm_insertionSort rankRel (scoreAll idx q)
  have hsorted : (List.insertionSort rankRel (scoreAll idx q)).Pairwise rankRel :=
    List.sorted_insertionSort rankRel (scoreAll idx q)
  have hsub : List.Sublist (search idx q k) (List.insertionSort rankRel (scoreAll idx q)) :=
    List.take_sublist k _
  have hlen : (scoreAll idx q).length = idx.length := List.length_map idx _
  have hidsEq : ((scoreAll idx q).map fun p => p.1.id) = idx.map fun p => p.1.id := by
    unfold scoreAll
    rw [List.map_map]
    rfl
  refine ⟨?_, ?_, ?_, ?_⟩
  · unfold search
    rw [List.length_take, hperm.length_eq, hlen]
  · exact (hsorted.sublist hsub).imp (by intro a b hab; unfold rankRel at hab; omega)
  · intro hids
    have hids₁ : ((scoreAll idx q).map fun p => p.1.id).Nodup := by
      rw [hidsEq]; exact hids
    have hids₂ : ((List.insertionSort rankRel (scoreAll idx q)).map fun p => p.1.id).Nodup :=
      ((hperm.map _).nodup_iff).mpr hids₁
    have hids₃ : ((search idx q k).map fun p => p.1.id).Nodup :=
      hids₂.sublist (hsub.map _)
    have hpne : (search idx q k).Pairwise fun a b => a.1.id ≠ b.1.id :=
      (List.pairwise_map).mp hids₃
    have hpr : (search idx q k).Pairwise rankRel := hsorted.sublist hsub
    exact (hpr.and hpne).imp (by intro a b hab heq; unfold rankRel at hab; omega)
  · intro hlt
    have htake : search idx q k = List.insertionSort rankRel (scoreAll idx q) := by
      unfold search
      exact List.take_of_length_le (by rw [hperm.length_eq, hlen]; omega)
    have hfst : ((scoreAll idx q).map Prod.fst) = idx.map Prod.fst := by
      unfold scoreAll
      rw [List.map_map]
      rfl
    rw [htake, ← hfst]
    exact hperm.map Prod.fst

/-- Witness for claim C2 on the three-entry `tieIndex` (scores 3, 5, 3 under
the query [1], a tie between ids 0 and 2) with k = 2. -/
theorem search_spec_witness :
    1 ≤ 2 ∧
    ((search tieIndex [1] 2).length ≤ min 2 tieIndex.length ∧
      (search tieIndex [1] 2).Pairwise (fun a b => b.2 ≤ a.2) ∧
      ((tieIndex.map fun p => p.1.id).Nodup →
        (search tieIndex [1] 2).Pairwise fun a b => a.2 = b.2 → a.1.id < b.1.id) ∧
      (tieIndex.length < 2 →
        ((search tieIndex [1] 2).map Prod.fst).Perm (tieIndex.map Prod.fst))) :=
  ⟨by decide, search_spec tieIndex [1] 2 (by decide)⟩

theorem lookupSession_appendHistory (sid sid₂ : Nat) (turn : List ChatMsg) :
    ∀ l : List (Nat × Session),
      lookupSession (appendHistory l sid turn) sid₂ =
        (lookupSession l sid₂).map fun s =>
          if sid₂ = sid then { s with history := s.history ++ turn } else s := by
  intro l
  induction l with
  | nil => rfl
  | cons p rest ih =>
      simp only [appendHistory, lookupSession]
      by_cases hp : p.1 = sid₂
      · rw [if_pos hp, if_pos hp, hp]
        rfl
      · rw [if_neg hp, if_neg hp]
        exact ih

theorem lookupSession_append_left (sid : Nat) (s : Session) :
    ∀ (l m : List (Nat × Session)), lookupSession l sid = some s →
      lookupSession (l ++ m) sid = some s := by
  intro l
  induction l with
  | nil => intro m h; simp [lookupSession] at h
  | cons p rest ih =>
      intro m h
      simp only [lookupSession, List.cons_append] at h ⊢
      by_cases hp : p.1 = sid
      · rw [if_pos hp] at h ⊢
        exact h
      · rw [if_neg hp] at h ⊢
        exact ih m h

theorem lookupSession_none_of_lt (n : Nat) :
    ∀ l : List (Nat × Session), (∀ p ∈ l, p.1 < n) → lookupSession l n = none := by
  intro l
  induction l with
  | nil => intro _; rfl
  | cons p rest ih =>
      intro h
      have hp : p.1 < n := h p (List.mem_cons_self p rest)
      simp only [lookupSession]
      rw [if_neg (by omega)]
      exact ih fun q hq => h q (List.mem_cons_of_mem p hq)

theorem mem_appendHistory (sid : Nat) (turn : List ChatMsg) :
    ∀ (l : List (Nat × Session)) (p : Nat × Session), p ∈ appendHistory l sid turn →
      ∃ q ∈ l, p.1 = q.1 ∧ p.2.index = q.2.index := by
  intro l
  induction l with
  | nil => intro p hp; simp [appendHistory] at hp
  | cons r rest ih =>
      intro p hp
      simp only [appendHistory] at hp
      rcases List.mem_cons.mp hp with h | h
      · subst h
        by_cases hr : r.1 = sid
        · exact ⟨r, List.mem_cons_self r rest, rfl, by simp [hr]⟩
        · exact ⟨r, List.mem_cons_self r rest, rfl, by simp [hr]⟩
      · obtain ⟨q, hq, h₁, h₂⟩ := ih p h
        exact ⟨q, List.mem_cons_of_mem r hq, h₁, h₂⟩

theorem build_length (emb : Embedder) :
    ∀ (cks : List Chunk) (idx : VectorIndex), build emb cks = some idx →
      idx.length = cks.length := by
  intro cks
  induction cks with
  | nil =>
      intro idx h
      simp [build] at h
      subst h
      rfl
  | cons c rest ih =>
      intro idx h
      simp only [build] at h
      cases he : emb c.text with
      | none => rw [he] at h; simp at h
      | some e =>
          rw [he] at h
          cases hb : build emb rest with
          | none => rw [hb] at h; simp at h
          | some ridx =>
              rw [hb] at h
              simp at h
              subst h
              simp [ih ridx hb]

theorem appendTurn_none (st : Store) (sid : Nat) (u a : List Char)
    (h : lookupSession st.sessions sid = none) :
    appendTurn st sid u a = (.error .sessionNotFound, st) := by
  unfold appendTurn
  rw [h]

theorem appendTurn_some (st : Store) (sid : Nat) (u a : List Char) (s : Session)
    (h : lookupSession st.sessions sid = some s) :
    appendTurn st sid u a =
      (.ok (), ⟨appendHistory st.sessions sid [⟨.user, u⟩, ⟨.assistant, a⟩], st.nextId⟩) := by
  unfold appendTurn
  rw [h]

theorem answer_store_cases (emb : Embedder) (gen : LLM) (k : Nat) (st : Store) (sid : Nat)
    (s : Session) (m : List Char) :
    (answer emb gen k st sid s m).2 = st ∨
      ∃ ans, (answer emb gen k st sid s m).2 = (appendTurn st sid m ans).2 := by
  unfold answer
  split
  · left; rfl
  · split
    · left; rfl
    · right; exact ⟨_, rfl⟩

theorem chat_store_cases (emb : Embedder) (gen : LLM) (k : Nat) (st : Store) (sid : Nat)
    (m : List Char) :
    (chat emb gen k st sid m).2 = st ∨
      ∃ ans, (chat emb gen k st sid m).2 =
        ⟨appendHistory st.sessions sid [⟨.user, m⟩, ⟨.assistant, ans⟩], st.nextId⟩ := by
  unfold chat
  cases hl : lookupSession st.sessions sid with
  | none => left; rfl
  | some s =>
      rcases answer_store_cases emb gen k st sid s m with h | ⟨ans, h⟩
      · left; exact h
      · right
        refine ⟨ans, ?_⟩
        show (answer emb gen k st sid s m).2 = _
        rw [h, appendTurn_some st sid m ans s hl]

/-- Claim C3: if the language-model capability errors or times out during
`answer`, the call fails with `GenerationFailure` and the store — hence the
session's history — is exactly as it was before the call: no partial turn is
appended, `appendTurn` running only after generation succeeds. -/
theorem answer_generationFailure (emb : Embedder) (gen : LLM) (k : Nat) (st : Store)
    (sid : Nat) (s : Session) (userMsg : List Char) (cks : List Chunk)
    (hlook : lookupSession st.sessions sid = some s)
    (hgen : ∀ p, gen p = none)
    (hret : retrieve emb s userMsg k = .ok cks) :
    answer emb gen k st sid s userMsg = (.error .generationFailure, st) ∧
    lookupSession ((answer emb gen k st sid s userMsg).2).sessions sid = some s := by
  have h₁ : answer emb gen k st sid s userMsg = (.error .generationFailure, st) := by
    unfold answer
    rw [hret]
    simp only [hgen]
  refine ⟨h₁, ?_⟩
  rw [h₁]
  exact hlook

/-- Witness for claim C3: a one-session store, a constant embedder and a
language-model stub that throws on every invocation. -/
theorem answer_generationFailure_witness :
    (lookupSession sampleStore.sessions 0 = some sampleSession ∧
      (∀ p, failingLLM p = none) ∧
      retrieve constEmbedder sampleSession "hi".data 3 = .ok [sampleChunk]) ∧
    (answer constEmbedder failingLLM 3 sampleStore 0 sampleSession "hi".data =
        (.error .generationFailure, sampleStore) ∧
      lookupSession ((answer constEmbedder failingLLM 3 sampleStore 0 sampleSession
        "hi".data).2).sessions 0 = some sampleSession) :=
  ⟨⟨rfl, fun _ => rfl, rfl⟩,
    answer_generationFailure constEmbedder failingLLM 3 sampleStore 0 sampleSession
      "hi".data [sampleChunk] rfl (fun _ => rfl) rfl⟩

/-- Claim C5: `appendTurn` on a nonexistent session id fails with
`SessionNotFound` and leaves the store completely unchanged; on an existing
session it succeeds, appending the user and assistant messages as one atomic
turn while every other session and the id counter stay untouched. -/
theorem appendTurn_spec (st : Store) (sid : Nat) (u a : List Char) :
    (lookupSession st.sessions sid = none →
      appendTurn st sid u a = (.error .sessionNotFound, st)) ∧
    (∀ s, lookupSession st.sessions sid = some s →
      (appendTurn st sid u a).1 = .ok () ∧
      lookupSession ((appendTurn st sid u a).2).sessions sid =
        some { s with history := s.history ++ [⟨.user, u⟩, ⟨.assistant, a⟩] } ∧
      (∀ sid₂, sid₂ ≠ sid →
        lookupSession ((appendTurn st sid u a).2).sessions sid₂ =
          lookupSession st.sessions sid₂) ∧
      ((appendTurn st sid u a).2).nextId = st.nextId) := by
  constructor
  · exact appendTurn_none st sid u a
  · intro s h
    rw [appendTurn_some st sid u a s h]
    refine ⟨rfl, ?_, ?_, rfl⟩
    · rw [lookupSession_appendHistory sid sid _ st.sessions, h]
      simp
    · intro sid₂ hne₂
      rw [lookupSession_appendHistory sid sid₂ _ st.sessions]
      cases lookupSession st.sessions sid₂ <;> simp [hne₂]

/-- Witness for claim C5 at the one-session store: id 0 exists, id 5 does
not. -/
theorem appendTurn_spec_witness :
    (lookupSession sampleStore.sessions 0 = none →
      appendTurn sampleStore 0 "q".data "a".data = (.error .sessionNotFound, sampleStore)) ∧
    (∀ s, lookupSession sampleStore.sessions 0 = some s →
      (appendTurn sampleStore 0 "q".data "a".data).1 = .ok () ∧
      lookupSession ((appendTurn sampleStore 0 "q".data "a".data).2).sessions 0 =
        some { s with history :=
          s.history ++ [⟨.user, "q".data⟩, ⟨.assistant, "a".data⟩] } ∧
      (∀ sid₂, sid₂ ≠ 0 →
        lookupSession ((appendTurn sampleStore 0 "q".data "a".data).2).sessions sid₂ =
          lookupSession sampleStore.sessions sid₂) ∧
      ((appendTurn sampleStore 0 "q".data "a".data).2).nextId = sampleStore.nextId) :=
  appendTurn_spec sampleStore 0 "q".data "a".data

/-- Claim C6: retrieval reads the store without mutating it, so calling
`retrieve` twice with the same session, query and k — with no intervening
mutation — returns identical ordered chunks. -/
theorem retrieve_idempotent (emb : Embedder) (st : Store) (sid : Nat) (q : List Char)
    (k : Nat) :
    (retrieveOp emb st sid q k).2 = st ∧
    retrieveOp emb ((retrieveOp emb st sid q k).2) sid q k = retrieveOp emb st sid q k := by
  have h : (retrieveOp emb st sid q k).2 = st := by
    unfold retrieveOp
    split
    · rfl
    · rfl
  exact ⟨h, by rw [h]⟩

/-- Claim C8: `chat` on a session id that names no stored session fails with
`SessionNotFound`, passed through unchanged as the client-visible error, for
every message, and leaves the store unchanged. -/
theorem chat_sessionNotFound (emb : Embedder) (gen : LLM) (k : Nat) (st : Store)
    (sid : Nat) (msg : List Char) (h : lookupSession st.sessions sid = none) :
    chat emb gen k st sid msg = (.error .sessionNotFound, st) := by
  unfold chat
  rw [h]

/-- Witness for claim C8 at the unknown id 5 of the one-session store. -/
theorem chat_sessionNotFound_witness :
    lookupSession sampleStore.sessions 5 = none ∧
    chat constEmbedder failingLLM 3 sampleStore 5 "hi".data =
      (.error .sessionNotFound, sampleStore) :=
  ⟨rfl, chat_sessionNotFound constEmbedder failingLLM 3 sampleStore 5 "hi".data rfl⟩

theorem ingest_store_cases (emb : Embedder) (cs ov : Nat) (st : Store)
    (fn text : List Char) :
    (∃ e, ingest emb cs ov st fn text = (.error e, st)) ∨
      ∃ idx, idx ≠ [] ∧ ingest emb cs ov st fn text =
        (.ok st.nextId, ⟨st.sessions ++ [(st.nextId, ⟨fn, idx, []⟩)], st.nextId + 1⟩) := by
  unfold ingest
  split
  · left; exact ⟨_, rfl⟩
  · left; exact ⟨_, rfl⟩
  · split
    · left; exact ⟨_, rfl⟩
    · rename_i idx hbuild
      right
      refine ⟨idx, ?_, rfl⟩
      intro hnil
      have hl := build_length emb _ idx hbuild
      rw [hnil] at hl
      simp at hl

/-- Claim C4: ingest fails with `EmptyDocument` rather than creating a
session when chunking yields zero chunks; no operation (retrieve, chat/answer,
appendTurn, a later ingest) ever changes an existing session's index; a
successful upload creates a brand-new session under a fresh id with a
non-empty index; and every stored index stays non-empty across every
operation. -/
theorem session_index_invariants (emb : Embedder) (gen : LLM) (k cs ov : Nat) (st : Store)
    (hwf : ∀ p ∈ st.sessions, p.1 < st.nextId)
    (hne : ∀ p ∈ st.sessions, p.2.index ≠ []) :
    (∀ fn text, chunk text cs ov = .ok [] →
      ingest emb cs ov st fn text = (.error .emptyDocument, st)) ∧
    (∀ sid q kk, (retrieveOp emb st sid q kk).2 = st) ∧
    (∀ sid u a sid₂ s₁, lookupSession st.sessions sid₂ = some s₁ →
      ∃ s₂, lookupSession ((appendTurn st sid u a).2).sessions sid₂ = some s₂ ∧
        s₂.index = s₁.index) ∧
    (∀ sid m sid₂ s₁, lookupSession st.sessions sid₂ = some s₁ →
      ∃ s₂, lookupSession ((chat emb gen k st sid m).2).sessions sid₂ = some s₂ ∧
        s₂.index = s₁.index) ∧
    (∀ fn text sid₂ s₁, lookupSession st.sessions sid₂ = some s₁ →
      lookupSession ((ingest emb cs ov st fn text).2).sessions sid₂ = some s₁) ∧
    (∀ fn text sid st₂, ingest emb cs ov st fn text = (.ok sid, st₂) →
      lookupSession st.sessions sid = none ∧
      ∃ s, st₂.sessions = st.sessions ++ [(sid, s)] ∧ s.index ≠ [] ∧ s.history = []) ∧
    (∀ fn text, ∀ p ∈ ((ingest emb cs ov st fn text).2).sessions, p.2.index ≠ []) ∧
    (∀ sid u a, ∀ p ∈ ((appendTurn st sid u a).2).sessions, p.2.index ≠ []) ∧
    (∀ sid m, ∀ p ∈ ((chat emb gen k st sid m).2).sessions, p.2.index ≠ []) := by
  have happ : ∀ sid u a sid₂ s₁, lookupSession st.sessions sid₂ = some s₁ →
      ∃ s₂, lookupSession ((appendTurn st sid u a).2).sessions sid₂ = some s₂ ∧
        s₂.index = s₁.index := by
    intro sid u a sid₂ s₁ h₁
    cases hl : lookupSession st.sessions sid with
    | none =>
        rw [appendTurn_none st sid u a hl]
        exact ⟨s₁, h₁, rfl⟩
    | some s =>
        rw [appendTurn_some st sid u a s hl]
        rw [lookupSession_appendHistory sid sid₂ _ st.sessions, h₁, Option.map_some']
        refine ⟨_, rfl, ?_⟩
        by_cases h₂ : sid₂ = sid <;> simp [h₂]
  have happmem : ∀ sid u a, ∀ p ∈ ((appendTurn st sid u a).2).sessions, p.2.index ≠ [] := by
    intro sid u a p hp
    cases hl : lookupSession st.sessions sid with
    | none =>
        rw [appendTurn_none st sid u a hl] at hp
        exact hne p hp
    | some s =>
        rw [appendTurn_some st sid u a s hl] at hp
        obtain ⟨q, hq, _, hidx⟩ := mem_appendHistory sid _ st.sessions p hp
        rw [hidx]
        exact hne q hq
  refine ⟨?_, ?_, happ, ?_, ?_, ?_, ?_, happmem, ?_⟩
  · intro fn text h
    unfold ingest
    rw [h]
  · intro sid q kk
    unfold retrieveOp
    split
    · rfl
    · rfl
  · intro sid m sid₂ s₁ h₁
    rcases chat_store_cases emb gen k st sid m with h | ⟨ans, h⟩
    · rw [h]
      exact ⟨s₁, h₁, rfl⟩
    · rw [h]
      rw [lookupSession_appendHistory sid sid₂ _ st.sessions, h₁, Option.map_some']
      refine ⟨_, rfl, ?_⟩
      by_cases h₂ : sid₂ = sid <;> simp [h₂]
  · intro fn text sid₂ s₁ h₁
    rcases ingest_store_cases emb cs ov st fn text with ⟨e, h⟩ | ⟨idx, _, h⟩
    · rw [h]
      exact h₁
    · rw [h]
      exact lookupSession_append_left sid₂ s₁ st.sessions _ h₁
  · intro fn text sid st₂ hok
    rcases ingest_store_cases emb cs ov st fn text with ⟨e, h⟩ | ⟨idx, hnil, h⟩
    · rw [hok] at h
      simp at h
    · rw [hok] at h
      injection h with h₁ h₂
      injection h₁ with h₁
      subst h₁
      subst h₂
      exact ⟨lookupSession_none_of_lt st.nextId st.sessions hwf,
        ⟨fn, idx, []⟩, rfl, hnil, rfl⟩
  · intro fn text p hp
    rcases ingest_store_cases emb cs ov st fn text with ⟨e, h⟩ | ⟨idx, hnil, h⟩
    · rw [h] at hp
      exact hne p hp
    · rw [h] at hp
      rcases List.mem_append.mp hp with hmem | hmem
      · exact hne p hmem
      · simp at hmem
        rw [hmem]
        exact hnil
  · intro sid m p hp
    rcases chat_store_cases emb gen k st sid m with h | ⟨ans, h⟩
    · rw [h] at hp
      exact hne p hp
    · rw [h] at hp
      obtain ⟨q, hq, _, hidx⟩ := mem_appendHistory sid _ st.sessions p hp
      rw [hidx]
      exact hne q hq

/-- Witness for claim C4 at the one-session store (well-formed, non-empty
index) with the constant embedder, the failing language model, k = 3,
chunkSize 10 and overlap 2. -/
theorem session_index_invariants_witness :
    ((∀ p ∈ sampleStore.sessions, p.1 < sampleStore.nextId) ∧
      (∀ p ∈ sampleStore.sessions, p.2.index ≠ [])) ∧
    ((∀ fn text, chunk text 10 2 = .ok [] →
        ingest constEmbedder 10 2 sampleStore fn text = (.error .emptyDocument, sampleStore)) ∧
      (∀ sid q kk, (retrieveOp constEmbedder sampleStore sid q kk).2 = sampleStore) ∧
      (∀ sid u a sid₂ s₁, lookupSession sampleStore.sessions sid₂ = some s₁ →
        ∃ s₂, lookupSession ((appendTurn sampleStore sid u a).2).sessions sid₂ = some s₂ ∧
          s₂.index = s₁.index) ∧
      (∀ sid m sid₂ s₁, lookupSession sampleStore.sessions sid₂ = some s₁ →
        ∃ s₂, lookupSession ((chat constEmbedder failingLLM 3 sampleStore sid m).2).sessions
            sid₂ = some s₂ ∧ s₂.index = s₁.index) ∧
      (∀ fn text sid₂ s₁, lookupSession sampleStore.sessions sid₂ = some s₁ →
        lookupSession ((ingest constEmbedder 10 2 sampleStore fn text).2).sessions sid₂ =
          some s₁) ∧
      (∀ fn text sid st₂, ingest constEmbedder 10 2 sampleStore fn text = (.ok sid, st₂) →
        lookupSession sampleStore.sessions sid = none ∧
        ∃ s, st₂.sessions = sampleStore.sessions ++ [(sid, s)] ∧ s.index ≠ [] ∧
          s.history = []) ∧
      (∀ fn text, ∀ p ∈ ((ingest constEmbedder 10 2 sampleStore fn text).2).sessions,
        p.2.index ≠ []) ∧
      (∀ sid u a, ∀ p ∈ ((appendTurn sampleStore sid u a).2).sessions, p.2.index ≠ []) ∧
      (∀ sid m, ∀ p ∈ ((chat constEmbedder failingLLM 3 sampleStore sid m).2).sessions,
        p.2.index ≠ [])) :=
  ⟨⟨by decide, by decide⟩,
    session_index_invariants constEmbedder failingLLM 3 10 2 sampleStore
      (by decide) (by decide)⟩

theorem alternating_append_turn (l : List ChatMsg) (u a : List Char)
    (h : Alternating l) :
    Alternating (l ++ [⟨.user, u⟩, ⟨.assistant, a⟩]) := by
  obtain ⟨hlen, hrole⟩ := h
  constructor
  · rw [List.length_append, List.length_cons, List.length_cons, List.length_nil]
    omega
  · intro i hi
    rw [List.length_append] at hi
    by_cases hlt : i < l.length
    · rw [List.getElem_append_left hlt]
      exact hrole i hlt
    · have hge : l.length ≤ i := Nat.le_of_not_lt hlt
      rw [List.getElem_append_right hge]
      simp only [List.length_cons, List.length_nil] at hi
      have h₂ : i - l.length = 0 ∨ i - l.length = 1 := by omega
      rcases h₂ with h₀ | h₁
      · have hm : i % 2 = 0 := by omega
        simp [h₀, hm]
      · have hm : i % 2 = 1 := by omega
        simp [h₁, hm]

/-- Claim C9: `handleSend` is a no-op whenever the trimmed input is empty, no
session id is set, or a request is already in flight: it issues no network
request and leaves the whole component state — messages, sessionId, loading
(and input) — unchanged. -/
theorem handleSend_guard (st : UIState) (resp : ChatResponse)
    (h : trimChars st.input = [] ∨ st.sessionId = none ∨ st.loading = true) :
    handleSend st resp = (st, false) := by
  have hg : sendGuardFails st = true := by
    unfold sendGuardFails
    rcases h with h | h | h <;> simp [h]
  unfold handleSend
  rw [hg]
  simp

/-- Witness for claim C9: no document uploaded yet (sessionId is none), with
non-empty input and no request in flight. -/
theorem handleSend_guard_witness :
    (trimChars "hi".data = [] ∨ (none : Option (List Char)) = none ∨ false = true) ∧
    handleSend ⟨none, [], "hi".data, false⟩ (.ok none) =
      (⟨none, [], "hi".data, false⟩, false) :=
  ⟨Or.inr (Or.inl rfl),
    handleSend_guard ⟨none, [], "hi".data, false⟩ (.ok none) (Or.inr (Or.inl rfl))⟩

/-- Counterexample to claim C10 as stated: a successful response whose body
does carry an `answer` field holding the empty string.  The guard passes and
the request runs, yet the appended assistant content is the literal
"No response received" — not the backend's answer — because the JavaScript
expression `data.answer || "No response received"` treats the empty string as
falsy. -/
theorem handleSend_empty_answer :
    (handleSend ⟨some "s".data, [], "hi".data, false⟩ (.ok (some []))).2 = true ∧
    (handleSend ⟨some "s".data, [], "hi".data, false⟩ (.ok (some []))).1.messages =
      [⟨.user, "hi".data⟩, ⟨.assistant, "No response received".data⟩] ∧
    ¬ claimedReplySpec (.ok (some [])) (assistantReply (.ok (some []))) := by
  refine ⟨by decide, by decide, fun hcl => ?_⟩
  exact absurd (show assistantReply (.ok (some [])) = [] from hcl) (by decide)

/-- Claim C10 (amended): every guard-passing run of `handleSend` appends
exactly one user message (the trimmed question) and then exactly one
assistant message — the backend's answer on success when that answer is
non-empty, the literal "No response received" when the answer field is absent
or the empty string, and an "Error: "-prefixed string on any failure — so an
alternating user/assistant conversation stays alternating and the user's
question is never lost. -/
theorem handleSend_appends_turn (st : UIState) (resp : ChatResponse)
    (h₁ : trimChars st.input ≠ []) (h₂ : st.sessionId ≠ none) (h₃ : st.loading = false) :
    (handleSend st resp).2 = true ∧
    (handleSend st resp).1.messages =
      st.messages ++ [⟨.user, trimChars st.input⟩, ⟨.assistant, assistantReply resp⟩] ∧
    amendedReplySpec resp (assistantReply resp) ∧
    (Alternating st.messages → Alternating (handleSend st resp).1.messages) := by
  have e₁ : (trimChars st.input).isEmpty = false := by
    cases he : (trimChars st.input).isEmpty
    · rfl
    · exact absurd (List.isEmpty_iff.mp he) h₁
  have e₂ : st.sessionId.isNone = false := by
    cases ho : st.sessionId.isNone
    · rfl
    · exact absurd (Option.isNone_iff_eq_none.mp ho) h₂
  have hg : sendGuardFails st = false := by
    unfold sendGuardFails
    rw [e₁, e₂, h₃]
    rfl
  have hrun : handleSend st resp =
      ({ st with
          input := [],
          messages :=
            (st.messages ++ [⟨.user, trimChars st.input⟩]) ++
              [⟨.assistant, assistantReply resp⟩],
          loading := false }, true) := by
    unfold handleSend
    rw [hg]
    rfl
  rw [hrun]
  refine ⟨rfl, by rw [List.append_assoc]; rfl, ?_, ?_⟩
  · cases resp with
    | ok a =>
        cases a with
        | none => simp [amendedReplySpec, assistantReply, jsOr]
        | some s =>
            by_cases hs : s = [] <;> simp [amendedReplySpec, assistantReply, jsOr, hs]
    | httpErr d => exact ⟨_, rfl⟩
    | netErr m => exact ⟨_, rfl⟩
  · intro halt
    have hstep :=
      alternating_append_turn st.messages (trimChars st.input) (assistantReply resp) halt
    rw [List.append_assoc]
    exact hstep

/-- Witness for claim C10 (amended): a ready session, the question "hi", and a
successful non-empty answer. -/
theorem handleSend_appends_turn_witness :
    (trimChars "hi".data ≠ [] ∧ (some "s".data : Option (List Char)) ≠ none ∧
      false = false) ∧
    ((handleSend ⟨some "s".data, [], "hi".data, false⟩ (.ok (some "Yes.".data))).2 = true ∧
      (handleSend ⟨some "s".data, [], "hi".data, false⟩
            (.ok (some "Yes.".data))).1.messages =
        [] ++ [⟨.user, trimChars "hi".data⟩,
          ⟨.assistant, assistantReply (.ok (some "Yes.".data))⟩] ∧
      amendedReplySpec (.ok (some "Yes.".data)) (assistantReply (.ok (some "Yes.".data))) ∧
      (Alternating [] →
        Alternating (handleSend ⟨some "s".data, [], "hi".data, false⟩
          (.ok (some "Yes.".data))).1.messages)) :=
  ⟨⟨by decide, by decide, rfl⟩,
    handleSend_appends_turn ⟨some "s".data, [], "hi".data, false⟩
      (.ok (some "Yes.".data)) (by decide) (by decide) rfl⟩

end DocuMind
